import Mathlib

/-!
Verification of the random-beacon / committee-rotation core of the dex
repository (pkg/consensus: random_beacon.go, networking.go).

The Go code in `pkg/consensus` is embedded shallowly: the `RandomBeacon`
struct becomes a Lean structure, its methods become pure state-passing
functions, and the gossip handlers become functions from an abstract chain
view and an item list to the list of network calls they issue.

The repository pieces not present in the sources we verify against
(the `Rand` PRNG, the `hash` digest, the share/sig wire types' `Hash`
methods, the threshold-recovery primitive and the external `Chain`)
are modelled from the specification; each such definition carries a
doc comment starting with `Modelled from the spec:`.
-/

namespace Dex

/-- Modelled from the spec: `Hash` is a fixed-width collision-resistant
digest (the concrete digest function is not in the verified sources);
we represent digests as natural numbers. -/
abbrev Hash := Nat

/-- Modelled from the spec: `Addr` is a fixed-width account identifier. -/
abbrev Addr := Nat

/-- Modelled from the spec: stand-in digest combiner over byte sequences,
used wherever the sources call the repository's `hash` function. -/
def H (l : List Nat) : Nat := l.foldl (fun a b => a * 256 + b + 1) 1

/-- Byte sequence of a string, used for the domain-separation strings the
sources pass to `Rand.Derive`. -/
def strBytes (s : String) : List Nat := s.data.map Char.toNat

/-- Modelled from the spec: the repository's `hash` helper, a
collision-resistant digest of a byte sequence. -/
def hash (bytes : List Nat) : Hash := H bytes

/-- Modelled from the spec (§4.1): `Rand` is a deterministic PRNG keyed by
a hash-derivable state. -/
structure Rand where
  state : Nat
deriving Repr, DecidableEq

/-- Modelled from the spec: `Derive(bytes)` returns a fresh stream whose
state is `H(self.state ‖ bytes)`; the parent is not mutated. -/
def Rand.Derive (r : Rand) (bytes : List Nat) : Rand := ⟨H (r.state :: bytes)⟩

/-- Modelled from the spec: `Mod(n)` extracts an index in `[0, n)` as a
reduction of the state interpreted as an unsigned integer. -/
def Rand.Mod (r : Rand) (n : Nat) : Nat := r.state % n

/-- One pseudo-random draw of the stream at step `i` (deterministic in the
state), used to drive the Fisher-Yates shuffle of `Rand.Perm`. -/
def Rand.draw (r : Rand) (i : Nat) : Nat := (r.Derive [i]).state

/-- The Fisher-Yates swap target for position `i` in a shuffle of `n`
elements: an index in `[i, n)` chosen by the stream. -/
def fyJ (r : Rand) (n i : Nat) : Nat := i + r.draw i % (n - i)

/-- The value-swap function underlying one Fisher-Yates step: exchanges
`i` and `j`, fixing everything else. -/
def swapFun (i j x : Nat) : Nat := if x = i then j else if x = j then i else x

/-- The Fisher-Yates permutation of `0..n-1` driven by the stream `r`,
as a function on positions: position `i` of the shuffled array holds
`fyFun r n i`. -/
def fyFun (r : Rand) (n : Nat) : Nat → Nat :=
  (List.range n).foldl (fun f i => fun x => f (swapFun i (fyJ r n i) x)) id

/-- Modelled from the spec (§4.1): `Perm(k, n)` returns a permutation of
`0..n-1` whose first `k` positions are the `k`-element prefix of a
Fisher-Yates shuffle driven by the stream; we materialize the full
shuffle, which satisfies this for every `k`. -/
def Rand.Perm (r : Rand) (_k n : Nat) : List Nat := (List.range n).map (fyFun r n)

/-- Group: ordered member list plus an aggregate public key
(pkg/consensus, shared read-only registry). -/
structure Group where
  Members : List Addr
  PK : Nat
deriving Repr, DecidableEq, Inhabited

/-- Config (pkg/consensus): group size, threshold; `BlockTime` is unused
by the beacon and omitted. -/
structure Config where
  GroupSize : Nat
  GroupThreshold : Nat
deriving Repr, DecidableEq

/-- RandBeaconSigShare (pkg/consensus): one participant's share of the
round's threshold signature. -/
structure RandBeaconSigShare where
  Round : Nat
  Owner : Addr
  LastSigHash : Hash
  Sig : List Nat
deriving Repr, DecidableEq, Inhabited

/-- Modelled from the spec: a share's `Hash()` digests its canonical
encoding. -/
def RandBeaconSigShare.Hash (s : RandBeaconSigShare) : Hash :=
  H ([s.Round, s.Owner, s.LastSigHash] ++ s.Sig)

/-- RandBeaconSig (pkg/consensus): the recovered group signature of one
round. -/
structure RandBeaconSig where
  Round : Nat
  LastRandVal : Hash
  Sig : List Nat
deriving Repr, DecidableEq, Inhabited

/-- Modelled from the spec (§6): canonical encoding of a `RandBeaconSig`
with the `Sig` field elided, the signing input. -/
def RandBeaconSig.Encode (s : RandBeaconSig) : List Nat :=
  [s.Round, s.LastRandVal]

/-- Modelled from the spec (§4.2): deterministic threshold recovery from
the in-flight share map; the cryptographic primitive is out of scope, so
we digest the share keys in deterministic order. -/
def recoverRandBeaconSig (shares : List (Hash × RandBeaconSigShare)) : List Nat :=
  [H (shares.map Prod.fst)]

/-- Modelled from the spec (§4.2, §7): verification of an honestly
recovered threshold signature always succeeds; failure is a protocol
invariant violation, impossible by the defining property of the scheme. -/
def sigVerify (_sig : List Nat) (_pk : Nat) (_msg : List Nat) : Bool := true

/-- Lookup in the `curRoundShares` map (Go `map[Hash]*RandBeaconSigShare`
read, nil for a missing key). -/
def mapLookup : List (Hash × RandBeaconSigShare) → Hash → Option RandBeaconSigShare
  | [], _ => none
  | p :: rest, h => if p.1 = h then some p.2 else mapLookup rest h

/-- Insert into the `curRoundShares` map (Go map assignment: replaces the
value under an existing key, otherwise adds a new entry). -/
def mapInsert : List (Hash × RandBeaconSigShare) → Hash → RandBeaconSigShare →
    List (Hash × RandBeaconSigShare)
  | [], h, s => [(h, s)]
  | p :: rest, h, s => if p.1 = h then (h, s) :: rest else p :: mapInsert rest h s

/-- RandomBeacon (random_beacon.go lines 16-30): per-round
threshold-signature aggregator and committee-history keeper. -/
structure RandomBeacon where
  cfg : Config
  nextRBCmteHistory : List Nat
  nextNtCmteHistory : List Nat
  nextBPCmteHistory : List Nat
  groups : List Group
  rbRand : Rand
  ntRand : Rand
  bpRand : Rand
  curRoundShares : List (Hash × RandBeaconSigShare)
  sigHistory : List RandBeaconSig
deriving Repr, DecidableEq

/-- NewRandomBeacon (random_beacon.go lines 33-51). -/
def NewRandomBeacon (seed : Rand) (groups : List Group) (cfg : Config) : RandomBeacon :=
  let rbRand := seed.Derive (strBytes "random beacon committee rand seed")
  let bpRand := seed.Derive (strBytes "block proposer committee rand seed")
  let ntRand := seed.Derive (strBytes "notarization committee rand seed")
  { cfg := cfg
    groups := groups
    rbRand := rbRand
    bpRand := bpRand
    ntRand := ntRand
    nextRBCmteHistory := [rbRand.Mod groups.length]
    nextNtCmteHistory := [ntRand.Mod groups.length]
    nextBPCmteHistory := [bpRand.Mod groups.length]
    curRoundShares := []
    sigHistory := [{ Round := 0, LastRandVal := 0,
                     Sig := strBytes "DEX random beacon 0th signature" }] }

/-- round (random_beacon.go lines 109-111). -/
def RandomBeacon.round (r : RandomBeacon) : Nat := r.sigHistory.length

/-- Round (random_beacon.go lines 119-124): the public, lock-guarded view
of `round`. -/
def RandomBeacon.Round (r : RandomBeacon) : Nat := r.round

/-- GetShare (random_beacon.go lines 55-60). -/
def RandomBeacon.GetShare (r : RandomBeacon) (h : Hash) : Option RandBeaconSigShare :=
  mapLookup r.curRoundShares h

/-- RecvRandBeaconSigShare (random_beacon.go lines 64-92); the mutated
receiver is returned alongside the Go `(sig, err)` result, with
`Except.error` for a non-nil error. -/
def RandomBeacon.RecvRandBeaconSigShare (r : RandomBeacon) (s : RandBeaconSigShare)
    (groupID : Nat) : RandomBeacon × Except String (Option RandBeaconSig) :=
  if r.round ≠ s.Round then
    (r, .error "unexpected RandBeaconSigShare.Round")
  else if hash ((r.sigHistory.getD (s.Round - 1) default).Sig) ≠ s.LastSigHash then
    (r, .error "unexpected RandBeaconSigShare.LastSigHash")
  else
    let shares := mapInsert r.curRoundShares s.Hash s
    let r' := { r with curRoundShares := shares }
    if r.cfg.GroupThreshold ≤ shares.length then
      let sig := recoverRandBeaconSig shares
      let rbs : RandBeaconSig := { Round := s.Round, LastRandVal := s.LastSigHash, Sig := [] }
      if sigVerify sig ((r.groups.getD groupID default).PK) rbs.Encode then
        (r', .ok (some { rbs with Sig := sig }))
      else
        (r', .error "impossible: random beacon group signature verification failed")
    else
      (r', .ok none)

/-- deriveRand (random_beacon.go lines 147-154). -/
def RandomBeacon.deriveRand (r : RandomBeacon) (h : Hash) : RandomBeacon :=
  let rbRand := r.rbRand.Derive [h]
  let ntRand := r.ntRand.Derive [h]
  let bpRand := r.bpRand.Derive [h]
  { r with
    rbRand := rbRand
    nextRBCmteHistory := r.nextRBCmteHistory ++ [rbRand.Mod r.groups.length]
    ntRand := ntRand
    nextNtCmteHistory := r.nextNtCmteHistory ++ [ntRand.Mod r.groups.length]
    bpRand := bpRand
    nextBPCmteHistory := r.nextBPCmteHistory ++ [bpRand.Mod r.groups.length] }

/-- RecvRandBeaconSig (random_beacon.go lines 95-107); returns the mutated
receiver and the Go error (`none` on success). -/
def RandomBeacon.RecvRandBeaconSig (r : RandomBeacon) (s : RandBeaconSig) :
    RandomBeacon × Option String :=
  if r.round ≠ s.Round then
    (r, some "unexpected RandBeaconSig round")
  else
    ({ r.deriveRand (hash s.Sig) with
       curRoundShares := []
       sigHistory := r.sigHistory ++ [s] }, none)

/-- First index at which `addr` occurs (the linear scan in Rank,
random_beacon.go lines 131-137; `none` corresponds to `idx = -1`). -/
def findIdxA (addr : Addr) : List Addr → Option Nat
  | [] => none
  | m :: rest => if m = addr then some 0 else (findIdxA addr rest).map (· + 1)

/-- The currently-active block-proposal committee (the group indexed by the
last entry of `nextBPCmteHistory`, random_beacon.go lines 129-130). -/
def RandomBeacon.curBPGroup (r : RandomBeacon) : Group :=
  r.groups.getD (r.nextBPCmteHistory.getD (r.nextBPCmteHistory.length - 1) 0) default

/-- Rank (random_beacon.go lines 128-145). -/
def RandomBeacon.Rank (r : RandomBeacon) (addr : Addr) : Except String Nat :=
  let g := r.curBPGroup
  match findIdxA addr g.Members with
  | none => .error "addr not in the current block proposal committee"
  | some idx => .ok ((r.bpRand.Perm (idx + 1) g.Members.length).getD idx 0)

/-- Committees (random_beacon.go lines 158-166). -/
def RandomBeacon.Committees (r : RandomBeacon) : Nat × Nat × Nat :=
  (r.nextRBCmteHistory.getD (r.nextRBCmteHistory.length - 1) 0,
   r.nextBPCmteHistory.getD (r.nextBPCmteHistory.length - 1) 0,
   r.nextNtCmteHistory.getD (r.nextNtCmteHistory.length - 1) 0)

/-- History (random_beacon.go lines 169-174). -/
def RandomBeacon.History (r : RandomBeacon) : List RandBeaconSig := r.sigHistory

instance {ε α : Type} [DecidableEq ε] [DecidableEq α] : DecidableEq (Except ε α)
  | .ok x, .ok y =>
    if h : x = y then .isTrue (by rw [h]) else
      .isFalse (fun he => by cases he; exact h rfl)
  | .ok _, .error _ => .isFalse (fun he => by cases he)
  | .error _, .ok _ => .isFalse (fun he => by cases he)
  | .error e, .error f =>
    if h : e = f then .isTrue (by rw [h]) else
      .isFalse (fun he => by cases he; exact h rfl)

/-- One beacon mutation: the two receive operations of the public API
(the remaining public operations are pure reads). -/
inductive BeaconOp where
  | share (s : RandBeaconSigShare) (groupID : Nat)
  | sig (s : RandBeaconSig)

/-- Apply one operation to the beacon, discarding the returned value. -/
def applyOp (r : RandomBeacon) : BeaconOp → RandomBeacon
  | .share s gid => (r.RecvRandBeaconSigShare s gid).1
  | .sig s => (r.RecvRandBeaconSig s).1

/-- Run a sequence of operations against the beacon. -/
def runOps (r : RandomBeacon) (ops : List BeaconOp) : RandomBeacon :=
  ops.foldl applyOp r

/-- One step of the committee-history recomputation: advance the stream by
the signature's hash and append the selected committee index. -/
def histStep (n : Nat) (p : Rand × List Nat) (s : RandBeaconSig) : Rand × List Nat :=
  let rand := p.1.Derive [hash s.Sig]
  (rand, p.2 ++ [rand.Mod n])

/-- The stream state and committee history determined by a domain-derived
initial stream and the signature history past the genesis entry: the pure
function of `sigHistory` and the initial seed that the committee
histories must equal. -/
def cmteOf (r0 : Rand) (n : Nat) (tail : List RandBeaconSig) : Rand × List Nat :=
  tail.foldl (histStep n) (r0, [r0.Mod n])

/-- The inductive invariant tying a beacon's streams and committee
histories to its `sigHistory`, its construction seed and its group list. -/
def BeaconInv (seed : Rand) (groups : List Group) (r : RandomBeacon) : Prop :=
  r.sigHistory ≠ [] ∧
  r.groups = groups ∧
  (r.rbRand, r.nextRBCmteHistory)
    = cmteOf (seed.Derive (strBytes "random beacon committee rand seed"))
        groups.length (r.sigHistory.drop 1) ∧
  (r.ntRand, r.nextNtCmteHistory)
    = cmteOf (seed.Derive (strBytes "notarization committee rand seed"))
        groups.length (r.sigHistory.drop 1) ∧
  (r.bpRand, r.nextBPCmteHistory)
    = cmteOf (seed.Derive (strBytes "block proposer committee rand seed"))
        groups.length (r.sigHistory.drop 1)

/-! Networking model (networking.go). The external chain is modelled from
the spec as an abstract read-only view; the handlers are embedded as
functions returning the list of network calls they issue. -/

/-- Modelled from the spec: a block stored by the external chain. -/
structure Block where
  data : Nat
deriving Repr, DecidableEq, Inhabited

/-- Modelled from the spec: a block proposal stored by the external chain. -/
structure BlockProposal where
  data : Nat
deriving Repr, DecidableEq, Inhabited

/-- Modelled from the spec: a notarization share stored by the external
chain. -/
structure NtShare where
  data : Nat
deriving Repr, DecidableEq, Inhabited

/-- ItemType (networking.go lines 31-42). -/
inductive ItemType where
  | TxnItem
  | SysTxnItem
  | BlockItem
  | BlockProposalItem
  | NtShareItem
  | RandBeaconShareItem
  | RandBeaconItem
deriving Repr, DecidableEq

/-- ItemID (networking.go lines 45-50). -/
structure ItemID where
  T : ItemType
  ItemRound : Nat
  Ref : Hash
  Hash : Hash
deriving Repr, DecidableEq

/-- Modelled from the spec: the queries `recvInventory` and `serveData`
make against the external chain (`Round`, `Block`, `BlockProposal`,
`NtShare`, `NeedNotarize`). -/
structure ChainView where
  round : Nat
  block : Hash → Option Block
  blockProposal : Hash → Option BlockProposal
  ntShare : Hash → Option NtShare
  needNotarize : Hash → Bool

/-- The `GetData` decision `recvInventory` takes for one inventory item
(networking.go lines 289-345): the issued request, or nothing. -/
def inventoryStep (c : ChainView) (rb : RandomBeacon) (id : ItemID) : List ItemID :=
  match id.T with
  | .TxnItem => []
  | .SysTxnItem => []
  | .BlockItem =>
    if (c.block id.Hash).isSome then [] else [id]
  | .BlockProposalItem =>
    if id.ItemRound ≠ c.round then []
    else if (c.blockProposal id.Hash).isSome then []
    else [id]
  | .NtShareItem =>
    if id.ItemRound ≠ c.round then []
    else if (c.ntShare id.Hash).isSome then []
    else if ¬ c.needNotarize id.Ref then []
    else [id]
  | .RandBeaconShareItem =>
    if id.ItemRound ≠ c.round then []
    else if (rb.GetShare id.Hash).isSome then []
    else [id]
  | .RandBeaconItem =>
    if id.ItemRound ≠ c.round then [] else [id]

/-- recvInventory (networking.go lines 278-346), as the list of `GetData`
requests issued; a `TxnItem` or `SysTxnItem` panics, aborting the loop. -/
def recvInventoryCalls (c : ChainView) (rb : RandomBeacon) : List ItemID → List ItemID
  | [] => []
  | id :: rest =>
    match id.T with
    | .TxnItem => []
    | .SysTxnItem => []
    | _ => inventoryStep c rb id ++ recvInventoryCalls c rb rest

/-- A message `serveData` sends back to the requester. -/
inductive SentMsg where
  | block (b : Block)
  | blockProposal (p : BlockProposal)
  | ntShare (n : NtShare)
  | randBeaconSigShare (s : RandBeaconSigShare)
  | randBeaconSig (s : RandBeaconSig)
deriving Repr, DecidableEq

/-- The response `serveData` produces for one requested item
(networking.go lines 373-413). -/
def serveStep (c : ChainView) (rb : RandomBeacon) (id : ItemID) : List SentMsg :=
  match id.T with
  | .TxnItem => []
  | .SysTxnItem => []
  | .BlockItem =>
    match c.block id.Hash with
    | none => []
    | some b => [.block b]
  | .BlockProposalItem =>
    match c.blockProposal id.Hash with
    | none => []
    | some bp => [.blockProposal bp]
  | .NtShareItem =>
    match c.ntShare id.Hash with
    | none => []
    | some nts => [.ntShare nts]
  | .RandBeaconShareItem =>
    match rb.GetShare id.Hash with
    | none => []
    | some share => [.randBeaconSigShare share]
  | .RandBeaconItem =>
    if rb.History.length ≤ id.ItemRound then []
    else [.randBeaconSig (rb.History.getD id.ItemRound default)]

/-- serveData (networking.go lines 366-414), as the list of messages sent
to the requester; a `TxnItem` or `SysTxnItem` panics, aborting the loop. -/
def serveDataMsgs (c : ChainView) (rb : RandomBeacon) : List ItemID → List SentMsg
  | [] => []
  | id :: rest =>
    match id.T with
    | .TxnItem => []
    | .SysTxnItem => []
    | _ => serveStep c rb id ++ serveDataMsgs c rb rest

/-- The node holds the artifact carried by a sent message: it is stored in
the chain view or in the random beacon. -/
def nodeHolds (c : ChainView) (rb : RandomBeacon) : SentMsg → Prop
  | .block b => ∃ h, c.block h = some b
  | .blockProposal p => ∃ h, c.blockProposal h = some p
  | .ntShare n => ∃ h, c.ntShare h = some n
  | .randBeaconSigShare s => ∃ h, rb.GetShare h = some s
  | .randBeaconSig s => s ∈ rb.History

/-! Concrete test fixture: one group of three members, threshold 2,
matching scenarios S1-S6 of the specification. -/

def groups0 : List Group := [⟨[10, 20, 30], 99⟩]

def cfg0 : Config := ⟨3, 2⟩

def seed0 : Rand := ⟨7⟩

def beacon0 : RandomBeacon := NewRandomBeacon seed0 groups0 cfg0

/-- The hash every round-1 share must carry in `LastSigHash`. -/
def h0 : Hash := hash (strBytes "DEX random beacon 0th signature")

def share1 : RandBeaconSigShare := { Round := 1, Owner := 10, LastSigHash := h0, Sig := [1] }

def share2 : RandBeaconSigShare := { Round := 1, Owner := 20, LastSigHash := h0, Sig := [2] }

/-- A round-1 share carrying a wrong `LastSigHash`. -/
def shareBadHash : RandBeaconSigShare := { Round := 1, Owner := 10, LastSigHash := 5, Sig := [1] }

/-- A share for round 2 submitted while the beacon is at round 1. -/
def shareBadRound : RandBeaconSigShare := { Round := 2, Owner := 10, LastSigHash := h0, Sig := [1] }

/-- The beacon after accepting the first valid round-1 share. -/
def beacon1 : RandomBeacon := (beacon0.RecvRandBeaconSigShare share1 0).1

def sigA : RandBeaconSig := { Round := 1, LastRandVal := h0, Sig := [5] }

/-- The chain view used by the S6 inventory scenario: round 5, nothing
stored. -/
def chain5 : ChainView :=
  { round := 5
    block := fun _ => none
    blockProposal := fun _ => none
    ntShare := fun _ => none
    needNotarize := fun _ => true }

def item4 : ItemID := { T := .RandBeaconShareItem, ItemRound := 4, Ref := 0, Hash := 77 }

def item5 : ItemID := { T := .RandBeaconShareItem, ItemRound := 5, Ref := 0, Hash := 77 }

/-- A chain view holding exactly one block, under hash 42. -/
def chainB : ChainView :=
  { round := 1
    block := fun h => if h = 42 then some ⟨5⟩ else none
    blockProposal := fun _ => none
    ntShare := fun _ => none
    needNotarize := fun _ => true }

def itemB : ItemID := { T := .BlockItem, ItemRound := 1, Ref := 0, Hash := 42 }

def itemRB : ItemID := { T := .RandBeaconItem, ItemRound := 0, Ref := 0, Hash := 0 }

def itemRBHigh : ItemID := { T := .RandBeaconItem, ItemRound := 3, Ref := 0, Hash := 0 }


theorem mapInsert_idem (m : List (Hash × RandBeaconSigShare)) (h : Hash) (s : RandBeaconSigShare) :
    mapInsert (mapInsert m h s) h s = mapInsert m h s := by
  induction m with
  | nil => simp [mapInsert]
  | cons p rest ih =>
    by_cases hp : p.1 = h
    · simp [mapInsert, hp]
    · simp [mapInsert, hp, ih]

theorem mapLookup_mapInsert_self (m : List (Hash × RandBeaconSigShare)) (h : Hash)
    (s : RandBeaconSigShare) : mapLookup (mapInsert m h s) h = some s := by
  induction m with
  | nil => simp [mapInsert, mapLookup]
  | cons p rest ih => by_cases hp : p.1 = h <;> simp [mapInsert, mapLookup, hp, ih]

theorem recvShare_state (r : RandomBeacon) (s : RandBeaconSigShare) (gid : Nat) :
    (r.RecvRandBeaconSigShare s gid).1 = r ∨
    (r.RecvRandBeaconSigShare s gid).1
      = { r with curRoundShares := mapInsert r.curRoundShares s.Hash s } := by
  simp only [RandomBeacon.RecvRandBeaconSigShare, sigVerify]
  split_ifs <;> simp

theorem recvShare_err (r : RandomBeacon) (s : RandBeaconSigShare) (gid : Nat)
    (h : ¬ (r.round = s.Round ∧
            hash ((r.sigHistory.getD (s.Round - 1) default).Sig) = s.LastSigHash)) :
    (r.RecvRandBeaconSigShare s gid).1 = r ∧
    ∃ e, (r.RecvRandBeaconSigShare s gid).2 = .error e := by
  rw [not_and_or] at h
  simp only [RandomBeacon.RecvRandBeaconSigShare]
  rcases h with h | h
  · rw [if_pos h]
    exact ⟨rfl, _, rfl⟩
  · by_cases h1 : r.round ≠ s.Round
    · rw [if_pos h1]
      exact ⟨rfl, _, rfl⟩
    · rw [if_neg h1, if_pos h]
      exact ⟨rfl, _, rfl⟩

theorem recvShare_ok (r : RandomBeacon) (s : RandBeaconSigShare) (gid : Nat)
    (h1 : r.round = s.Round)
    (h2 : hash ((r.sigHistory.getD (s.Round - 1) default).Sig) = s.LastSigHash) :
    (r.RecvRandBeaconSigShare s gid).1
      = { r with curRoundShares := mapInsert r.curRoundShares s.Hash s } ∧
    (r.RecvRandBeaconSigShare s gid).2
      = (if r.cfg.GroupThreshold ≤ (mapInsert r.curRoundShares s.Hash s).length then
           .ok (some { Round := s.Round, LastRandVal := s.LastSigHash,
                       Sig := recoverRandBeaconSig (mapInsert r.curRoundShares s.Hash s) })
         else .ok none) := by
  simp only [RandomBeacon.RecvRandBeaconSigShare, sigVerify, h1, h2, ne_eq,
    not_true_eq_false, if_false, ite_true]
  split_ifs <;> simp



theorem recvShare_sigHistory (r : RandomBeacon) (s : RandBeaconSigShare) (gid : Nat) :
    ((r.RecvRandBeaconSigShare s gid).1).sigHistory = r.sigHistory := by
  rcases recvShare_state r s gid with h | h <;> rw [h]

theorem recvSig_cases (r : RandomBeacon) (s : RandBeaconSig) :
    ((r.RecvRandBeaconSig s).2 = none ∧
      (r.RecvRandBeaconSig s).1.sigHistory = r.sigHistory ++ [s]) ∨
    ((r.RecvRandBeaconSig s).2 ≠ none ∧ (r.RecvRandBeaconSig s).1 = r) := by
  simp only [RandomBeacon.RecvRandBeaconSig]
  split_ifs with h
  · right; simp
  · left; simp

theorem applyOp_round_le (r : RandomBeacon) (op : BeaconOp) :
    r.round ≤ (applyOp r op).round := by
  cases op with
  | share s gid =>
    simp [applyOp, RandomBeacon.round, recvShare_sigHistory]
  | sig s =>
    rcases recvSig_cases r s with ⟨_, h⟩ | ⟨_, h⟩
    · simp [applyOp, RandomBeacon.round, h]
    · simp [applyOp, h]

theorem runOps_round_le (r : RandomBeacon) (ops : List BeaconOp) :
    r.round ≤ (runOps r ops).round := by
  induction ops generalizing r with
  | nil => exact Nat.le_refl _
  | cons op rest ih =>
    exact Nat.le_trans (applyOp_round_le r op) (ih (applyOp r op))

/-- C5: `Round()` always equals `len(sigHistory)`; it is 1 on a freshly
constructed beacon; it never decreases across any operation sequence;
a `RecvRandBeaconSigShare` call leaves it unchanged; an accepted
`RecvRandBeaconSig` increases it by exactly 1 and a rejected one leaves
the whole beacon unchanged. -/
theorem C5_round_invariants :
    (∀ r : RandomBeacon, r.Round = r.sigHistory.length) ∧
    (∀ (seed : Rand) (groups : List Group) (cfg : Config),
        (NewRandomBeacon seed groups cfg).Round = 1) ∧
    (∀ (r : RandomBeacon) (ops : List BeaconOp), r.Round ≤ (runOps r ops).Round) ∧
    (∀ (r : RandomBeacon) (s : RandBeaconSigShare) (gid : Nat),
        ((r.RecvRandBeaconSigShare s gid).1).Round = r.Round) ∧
    (∀ (r : RandomBeacon) (s : RandBeaconSig),
        (r.RecvRandBeaconSig s).2 = none → ((r.RecvRandBeaconSig s).1).Round = r.Round + 1) ∧
    (∀ (r : RandomBeacon) (s : RandBeaconSig),
        (r.RecvRandBeaconSig s).2 ≠ none → (r.RecvRandBeaconSig s).1 = r) := by
  refine ⟨fun r => rfl, fun seed groups cfg => rfl, runOps_round_le, ?_, ?_, ?_⟩
  · intro r s gid
    simp [RandomBeacon.Round, RandomBeacon.round, recvShare_sigHistory]
  · intro r s hnone
    rcases recvSig_cases r s with ⟨_, h⟩ | ⟨hne, _⟩
    · simp [RandomBeacon.Round, RandomBeacon.round, h]
    · exact absurd hnone hne
  · intro r s hne
    rcases recvSig_cases r s with ⟨hnone, _⟩ | ⟨_, h⟩
    · exact absurd hnone hne
    · exact h

/-- C1: a `RandBeaconSig` whose `Round` equals the beacon's current round
is accepted by `RecvRandBeaconSig`, which derives each of the three
streams by `Derive(hash(s.Sig))`, appends each stream's `Mod(|groups|)`
to the corresponding committee history, clears `curRoundShares`, appends
`s` to `sigHistory`, and increases `Round()` by exactly 1, every appended
committee index lying in `[0, |groups|)`. -/
theorem C1_recvSig_advances (r : RandomBeacon) (s : RandBeaconSig)
    (hr : r.round = s.Round) (hg : 0 < r.groups.length) :
    (r.RecvRandBeaconSig s).2 = none ∧
    (r.RecvRandBeaconSig s).1.rbRand = r.rbRand.Derive [hash s.Sig] ∧
    (r.RecvRandBeaconSig s).1.ntRand = r.ntRand.Derive [hash s.Sig] ∧
    (r.RecvRandBeaconSig s).1.bpRand = r.bpRand.Derive [hash s.Sig] ∧
    (r.RecvRandBeaconSig s).1.nextRBCmteHistory
      = r.nextRBCmteHistory ++ [(r.rbRand.Derive [hash s.Sig]).Mod r.groups.length] ∧
    (r.RecvRandBeaconSig s).1.nextNtCmteHistory
      = r.nextNtCmteHistory ++ [(r.ntRand.Derive [hash s.Sig]).Mod r.groups.length] ∧
    (r.RecvRandBeaconSig s).1.nextBPCmteHistory
      = r.nextBPCmteHistory ++ [(r.bpRand.Derive [hash s.Sig]).Mod r.groups.length] ∧
    (r.RecvRandBeaconSig s).1.curRoundShares = [] ∧
    (r.RecvRandBeaconSig s).1.sigHistory = r.sigHistory ++ [s] ∧
    (r.RecvRandBeaconSig s).1.Round = r.Round + 1 ∧
    (r.rbRand.Derive [hash s.Sig]).Mod r.groups.length < r.groups.length ∧
    (r.ntRand.Derive [hash s.Sig]).Mod r.groups.length < r.groups.length ∧
    (r.bpRand.Derive [hash s.Sig]).Mod r.groups.length < r.groups.length := by
  have hmod : ∀ x : Rand, x.Mod r.groups.length < r.groups.length :=
    fun x => Nat.mod_lt _ hg
  simp only [RandomBeacon.RecvRandBeaconSig]
  rw [if_neg (by simp [hr])]
  refine ⟨rfl, rfl, rfl, rfl, rfl, rfl, rfl, rfl, rfl, ?_, hmod _, hmod _, hmod _⟩
  simp [RandomBeacon.Round, RandomBeacon.round]

/-- C3: `RecvRandBeaconSigShare` returns an error and leaves the beacon
unchanged when the share's `Round` differs from the current round or its
`LastSigHash` differs from `hash(sigHistory[Round-1].Sig)`; only when
both checks pass is the share inserted into `curRoundShares` keyed by
its `Hash()`. -/
theorem C3_recvShare_validation (r : RandomBeacon) (s : RandBeaconSigShare) (gid : Nat) :
    (¬ (s.Round = r.round ∧
          s.LastSigHash = hash ((r.sigHistory.getD (s.Round - 1) default).Sig)) →
        (r.RecvRandBeaconSigShare s gid).1 = r ∧
        ∃ e, (r.RecvRandBeaconSigShare s gid).2 = .error e) ∧
    ((s.Round = r.round ∧
          s.LastSigHash = hash ((r.sigHistory.getD (s.Round - 1) default).Sig)) →
        (r.RecvRandBeaconSigShare s gid).1
          = { r with curRoundShares := mapInsert r.curRoundShares s.Hash s }) := by
  constructor
  · intro h
    refine recvShare_err r s gid ?_
    intro ⟨a, b⟩
    exact h ⟨a.symm, b.symm⟩
  · intro ⟨a, b⟩
    exact (recvShare_ok r s gid a.symm b.symm).1

/-- C2: for a valid share, `RecvRandBeaconSigShare` returns `(nil, nil)`
while the in-flight share count after insertion is below
`GroupThreshold`, and once the count reaches the threshold it returns a
non-nil `RandBeaconSig` whose `Round` is the share's `Round` and whose
`LastRandVal` is the share's `LastSigHash`. -/
theorem C2_threshold (r : RandomBeacon) (s : RandBeaconSigShare) (gid : Nat)
    (h1 : s.Round = r.round)
    (h2 : s.LastSigHash = hash ((r.sigHistory.getD (s.Round - 1) default).Sig)) :
    ((mapInsert r.curRoundShares s.Hash s).length < r.cfg.GroupThreshold →
        (r.RecvRandBeaconSigShare s gid).2 = .ok none) ∧
    (r.cfg.GroupThreshold ≤ (mapInsert r.curRoundShares s.Hash s).length →
        ∃ sig, (r.RecvRandBeaconSigShare s gid).2 = .ok (some sig) ∧
          sig.Round = s.Round ∧ sig.LastRandVal = s.LastSigHash) := by
  have h := (recvShare_ok r s gid h1.symm h2.symm).2
  constructor
  · intro hlt
    rw [h, if_neg (by omega)]
  · intro hge
    rw [h, if_pos hge]
    exact ⟨_, rfl, rfl, rfl⟩

/-- C9: `RecvRandBeaconSigShare` never modifies `sigHistory`, the three
committee histories or the three streams, in any outcome; it can change
only `curRoundShares` (leaving it or inserting the share), and after it
returns a recovered signature the inserted share is still present via
`GetShare` until an accepted `RecvRandBeaconSig` clears the share set. -/
theorem C9_recvShare_frame (r : RandomBeacon) (s : RandBeaconSigShare) (gid : Nat) :
    (r.RecvRandBeaconSigShare s gid).1.cfg = r.cfg ∧
    (r.RecvRandBeaconSigShare s gid).1.groups = r.groups ∧
    (r.RecvRandBeaconSigShare s gid).1.sigHistory = r.sigHistory ∧
    (r.RecvRandBeaconSigShare s gid).1.nextRBCmteHistory = r.nextRBCmteHistory ∧
    (r.RecvRandBeaconSigShare s gid).1.nextNtCmteHistory = r.nextNtCmteHistory ∧
    (r.RecvRandBeaconSigShare s gid).1.nextBPCmteHistory = r.nextBPCmteHistory ∧
    (r.RecvRandBeaconSigShare s gid).1.rbRand = r.rbRand ∧
    (r.RecvRandBeaconSigShare s gid).1.ntRand = r.ntRand ∧
    (r.RecvRandBeaconSigShare s gid).1.bpRand = r.bpRand ∧
    ((r.RecvRandBeaconSigShare s gid).1.curRoundShares = r.curRoundShares ∨
      (r.RecvRandBeaconSigShare s gid).1.curRoundShares
        = mapInsert r.curRoundShares s.Hash s) ∧
    (∀ sig, (r.RecvRandBeaconSigShare s gid).2 = .ok (some sig) →
        (r.RecvRandBeaconSigShare s gid).1.GetShare s.Hash = some s) ∧
    (∀ (r2 : RandomBeacon) (s2 : RandBeaconSig), (r2.RecvRandBeaconSig s2).2 = none →
        (r2.RecvRandBeaconSig s2).1.curRoundShares = []) := by
  rcases recvShare_state r s gid with h | h
  all_goals refine ⟨by rw [h], by rw [h], by rw [h], by rw [h], by rw [h], by rw [h],
    by rw [h], by rw [h], by rw [h], ?_, ?_, ?_⟩
  · left; rw [h]
  · intro sig hsig
    simp only [RandomBeacon.RecvRandBeaconSigShare, sigVerify] at hsig ⊢
    split_ifs at hsig ⊢ <;>
      simp_all [RandomBeacon.GetShare, mapLookup_mapInsert_self]
  · intro r2 s2 hnone
    rcases recvSig_cases r2 s2 with ⟨_, _⟩ | ⟨hne, _⟩
    · simp only [RandomBeacon.RecvRandBeaconSig] at hnone ⊢
      split_ifs at hnone ⊢
      simp_all
    · exact absurd hnone hne
  · right; rw [h]
  · intro sig hsig
    simp only [RandomBeacon.RecvRandBeaconSigShare, sigVerify] at hsig ⊢
    split_ifs at hsig ⊢ <;>
      simp_all [RandomBeacon.GetShare, mapLookup_mapInsert_self]
  · intro r2 s2 hnone
    rcases recvSig_cases r2 s2 with ⟨_, _⟩ | ⟨hne, _⟩
    · simp only [RandomBeacon.RecvRandBeaconSig] at hnone ⊢
      split_ifs at hnone ⊢
      simp_all
    · exact absurd hnone hne

/-- C10: submitting the same share twice is idempotent: a second
`RecvRandBeaconSigShare` call with the identical share in the same round
leaves the beacon state exactly as after the first call, so resent
duplicates never increase the count toward `GroupThreshold`. -/
theorem C10_recvShare_idem (r : RandomBeacon) (s : RandBeaconSigShare) (gid gid2 : Nat) :
    (((r.RecvRandBeaconSigShare s gid).1).RecvRandBeaconSigShare s gid2).1
      = (r.RecvRandBeaconSigShare s gid).1 := by
  by_cases hok : r.round = s.Round ∧
      hash ((r.sigHistory.getD (s.Round - 1) default).Sig) = s.LastSigHash
  · obtain ⟨h1, h2⟩ := hok
    have hfst := (recvShare_ok r s gid h1 h2).1
    have h1' : ((r.RecvRandBeaconSigShare s gid).1).round = s.Round := by
      rw [hfst]; exact h1
    have h2' : hash (((r.RecvRandBeaconSigShare s gid).1).sigHistory.getD
        (s.Round - 1) default).Sig = s.LastSigHash := by
      rw [hfst]; exact h2
    have hsnd := (recvShare_ok _ s gid2 h1' h2').1
    rw [hsnd, hfst]
    simp [mapInsert_idem]
  · have hfst := (recvShare_err r s gid hok).1
    rw [hfst, (recvShare_err r s gid2 hok).1]


theorem recvSig_reject (r : RandomBeacon) (s : RandBeaconSig) (h : r.round ≠ s.Round) :
    r.RecvRandBeaconSig s = (r, some "unexpected RandBeaconSig round") := by
  simp [RandomBeacon.RecvRandBeaconSig, h]

theorem recvSig_accept (r : RandomBeacon) (s : RandBeaconSig) (h : r.round = s.Round) :
    r.RecvRandBeaconSig s
      = ({ r.deriveRand (hash s.Sig) with
           curRoundShares := []
           sigHistory := r.sigHistory ++ [s] }, none) := by
  simp [RandomBeacon.RecvRandBeaconSig, h]

theorem cmteOf_snoc (r0 : Rand) (n : Nat) (tail : List RandBeaconSig) (s : RandBeaconSig) :
    cmteOf r0 n (tail ++ [s])
      = ((cmteOf r0 n tail).1.Derive [hash s.Sig],
         (cmteOf r0 n tail).2 ++ [((cmteOf r0 n tail).1.Derive [hash s.Sig]).Mod n]) := by
  simp [cmteOf, List.foldl_append, histStep]

theorem foldl_histStep_length (n : Nat) (tail : List RandBeaconSig) :
    ∀ p : Rand × List Nat, (tail.foldl (histStep n) p).2.length = p.2.length + tail.length := by
  induction tail with
  | nil => intro p; rfl
  | cons s rest ih =>
    intro p
    rw [List.foldl_cons, ih]
    simp [histStep]
    omega

theorem cmteOf_length (r0 : Rand) (n : Nat) (tail : List RandBeaconSig) :
    (cmteOf r0 n tail).2.length = tail.length + 1 := by
  rw [cmteOf, foldl_histStep_length]
  simp [Nat.add_comm]

theorem beaconInv_new (seed : Rand) (groups : List Group) (cfg : Config) :
    BeaconInv seed groups (NewRandomBeacon seed groups cfg) := by
  refine ⟨by simp [NewRandomBeacon], rfl, ?_, ?_, ?_⟩ <;>
    simp [NewRandomBeacon, cmteOf, histStep]

theorem beaconInv_applyOp (seed : Rand) (groups : List Group) (r : RandomBeacon)
    (op : BeaconOp) (h : BeaconInv seed groups r) : BeaconInv seed groups (applyOp r op) := by
  obtain ⟨hne, hg, hrb, hnt, hbp⟩ := h
  cases op with
  | share s gid =>
    rcases recvShare_state r s gid with heq | heq <;>
      · show BeaconInv seed groups (r.RecvRandBeaconSigShare s gid).1
        rw [heq]
        exact ⟨hne, hg, hrb, hnt, hbp⟩
  | sig s =>
    by_cases hr : r.round = s.Round
    · have hlen : 1 ≤ r.sigHistory.length := List.length_pos.mpr hne
      show BeaconInv seed groups (r.RecvRandBeaconSig s).1
      rw [recvSig_accept r s hr]
      refine ⟨by simp, hg, ?_, ?_, ?_⟩ <;>
        · show (_, _) = _
          simp only [RandomBeacon.deriveRand, List.drop_append_of_le_length hlen, cmteOf_snoc]
          first
          | rw [← hrb]
          | rw [← hnt]
          | rw [← hbp]
          simp [hg]
    · show BeaconInv seed groups (r.RecvRandBeaconSig s).1
      rw [recvSig_reject r s hr]
      exact ⟨hne, hg, hrb, hnt, hbp⟩

theorem beaconInv_runOps (seed : Rand) (groups : List Group) (cfg : Config)
    (ops : List BeaconOp) :
    BeaconInv seed groups (runOps (NewRandomBeacon seed groups cfg) ops) := by
  have h0 := beaconInv_new seed groups cfg
  rw [runOps]
  generalize NewRandomBeacon seed groups cfg = r at h0 ⊢
  induction ops generalizing r with
  | nil => exact h0
  | cons op rest ih =>
    rw [List.foldl_cons]
    exact ih _ (beaconInv_applyOp seed groups r op h0)

/-- C4 (amended): at every rest state reachable from construction by any
sequence of beacon operations, the rb, nt and bp committee histories all
have length `Round()` (not `Round() + 1`), and each stream/history pair
is the pure deterministic function `cmteOf` of the initial seed, the
group count and `sigHistory`. -/
theorem C4_cmte_histories (seed : Rand) (groups : List Group) (cfg : Config)
    (ops : List BeaconOp) :
    (runOps (NewRandomBeacon seed groups cfg) ops).nextRBCmteHistory.length
      = (runOps (NewRandomBeacon seed groups cfg) ops).Round ∧
    (runOps (NewRandomBeacon seed groups cfg) ops).nextNtCmteHistory.length
      = (runOps (NewRandomBeacon seed groups cfg) ops).Round ∧
    (runOps (NewRandomBeacon seed groups cfg) ops).nextBPCmteHistory.length
      = (runOps (NewRandomBeacon seed groups cfg) ops).Round ∧
    ((runOps (NewRandomBeacon seed groups cfg) ops).rbRand,
      (runOps (NewRandomBeacon seed groups cfg) ops).nextRBCmteHistory)
      = cmteOf (seed.Derive (strBytes "random beacon committee rand seed")) groups.length
          ((runOps (NewRandomBeacon seed groups cfg) ops).sigHistory.drop 1) ∧
    ((runOps (NewRandomBeacon seed groups cfg) ops).ntRand,
      (runOps (NewRandomBeacon seed groups cfg) ops).nextNtCmteHistory)
      = cmteOf (seed.Derive (strBytes "notarization committee rand seed")) groups.length
          ((runOps (NewRandomBeacon seed groups cfg) ops).sigHistory.drop 1) ∧
    ((runOps (NewRandomBeacon seed groups cfg) ops).bpRand,
      (runOps (NewRandomBeacon seed groups cfg) ops).nextBPCmteHistory)
      = cmteOf (seed.Derive (strBytes "block proposer committee rand seed")) groups.length
          ((runOps (NewRandomBeacon seed groups cfg) ops).sigHistory.drop 1) := by
  obtain ⟨hne, hg, hrb, hnt, hbp⟩ := beaconInv_runOps seed groups cfg ops
  have hlen : 1 ≤ (runOps (NewRandomBeacon seed groups cfg) ops).sigHistory.length :=
    List.length_pos.mpr hne
  have lrb : (runOps (NewRandomBeacon seed groups cfg) ops).nextRBCmteHistory
      = (cmteOf (seed.Derive (strBytes "random beacon committee rand seed")) groups.length
          ((runOps (NewRandomBeacon seed groups cfg) ops).sigHistory.drop 1)).2 := by
    rw [← hrb]
  have lnt : (runOps (NewRandomBeacon seed groups cfg) ops).nextNtCmteHistory
      = (cmteOf (seed.Derive (strBytes "notarization committee rand seed")) groups.length
          ((runOps (NewRandomBeacon seed groups cfg) ops).sigHistory.drop 1)).2 := by
    rw [← hnt]
  have lbp : (runOps (NewRandomBeacon seed groups cfg) ops).nextBPCmteHistory
      = (cmteOf (seed.Derive (strBytes "block proposer committee rand seed")) groups.length
          ((runOps (NewRandomBeacon seed groups cfg) ops).sigHistory.drop 1)).2 := by
    rw [← hbp]
  refine ⟨?_, ?_, ?_, hrb, hnt, hbp⟩
  · rw [lrb, cmteOf_length, RandomBeacon.Round, RandomBeacon.round]
    simp only [List.length_drop]
    omega
  · rw [lnt, cmteOf_length, RandomBeacon.Round, RandomBeacon.round]
    simp only [List.length_drop]
    omega
  · rw [lbp, cmteOf_length, RandomBeacon.Round, RandomBeacon.round]
    simp only [List.length_drop]
    omega

/-- C4 counterexample: on a freshly constructed beacon the three
committee histories have length 1 while `Round() + 1 = 2`, refuting the
claimed length `Round() + 1`. -/
theorem C4_counterexample :
    ¬ (beacon0.nextRBCmteHistory.length = beacon0.Round + 1 ∧
       beacon0.nextNtCmteHistory.length = beacon0.Round + 1 ∧
       beacon0.nextBPCmteHistory.length = beacon0.Round + 1) := by
  decide


theorem swapFun_swapFun (i j x : Nat) : swapFun i j (swapFun i j x) = x := by
  simp only [swapFun]
  split_ifs <;> omega

theorem swapFun_injective (i j : Nat) : Function.Injective (swapFun i j) :=
  Function.LeftInverse.injective (g := swapFun i j) (fun x => swapFun_swapFun i j x)

theorem foldl_swaps_injective (J : Nat → Nat) (l : List Nat) :
    ∀ f : Nat → Nat, Function.Injective f →
      Function.Injective (l.foldl (fun f i => fun x => f (swapFun i (J i) x)) f) := by
  induction l with
  | nil => intro f hf; exact hf
  | cons i rest ih =>
    intro f hf
    rw [List.foldl_cons]
    exact ih _ (hf.comp (swapFun_injective i (J i)))

theorem fyFun_injective (r : Rand) (n : Nat) : Function.Injective (fyFun r n) := by
  unfold fyFun
  exact foldl_swaps_injective (fyJ r n) (List.range n) id (fun a b h => h)

theorem findIdxA_eq_none_iff (addr : Addr) (l : List Addr) :
    findIdxA addr l = none ↔ addr ∉ l := by
  induction l with
  | nil => simp [findIdxA]
  | cons m rest ih =>
    by_cases hm : m = addr
    · simp [findIdxA, hm]
    · simp only [findIdxA, if_neg hm, Option.map_eq_none', ih, List.mem_cons]
      constructor
      · intro h hin
        rcases hin with h1 | h2
        · exact hm h1.symm
        · exact h h2
      · intro h hin
        exact h (Or.inr hin)

theorem findIdxA_eq_some (addr : Addr) (l : List Addr) (i : Nat)
    (h : findIdxA addr l = some i) : ∃ hlt : i < l.length, l.get ⟨i, hlt⟩ = addr := by
  induction l generalizing i with
  | nil => cases h
  | cons m rest ih =>
    by_cases hm : m = addr
    · simp only [findIdxA, if_pos hm, Option.some.injEq] at h
      subst h
      exact ⟨Nat.succ_pos _, hm⟩
    · simp only [findIdxA, if_neg hm, Option.map_eq_some'] at h
      obtain ⟨j, hj, rfl⟩ := h
      obtain ⟨hlt, hget⟩ := ih j hj
      exact ⟨Nat.succ_lt_succ hlt, by simpa using hget⟩

theorem Perm_getD (r : Rand) (k n i : Nat) (h : i < n) :
    (r.Perm k n).getD i 0 = fyFun r n i := by
  have hlen : i < ((List.range n).map (fyFun r n)).length := by simpa using h
  rw [Rand.Perm, List.getD_eq_getElem _ _ hlen]
  simp

theorem Rank_of_findIdxA (r : RandomBeacon) (a : Addr) (i : Nat)
    (h : findIdxA a r.curBPGroup.Members = some i) :
    r.Rank a = .ok (fyFun r.bpRand r.curBPGroup.Members.length i) := by
  obtain ⟨hlt, _⟩ := findIdxA_eq_some a _ i h
  simp only [RandomBeacon.Rank, h]
  rw [Perm_getD _ _ _ _ hlt]

/-- C6: `Rank(addr)` returns an error exactly when `addr` is not a member
of the current block-proposal committee; two distinct members always
receive distinct ranks (the Fisher-Yates permutation driving the rank is
injective); and the result is reproducible from the bp stream, the group
list and the committee history alone. -/
theorem C6_rank_spec :
    (∀ (r : RandomBeacon) (a : Addr),
        (∃ e, r.Rank a = .error e) ↔ a ∉ r.curBPGroup.Members) ∧
    (∀ (r : RandomBeacon) (a b : Addr), a ∈ r.curBPGroup.Members →
        b ∈ r.curBPGroup.Members → a ≠ b → r.Rank a ≠ r.Rank b) ∧
    (∀ (r1 r2 : RandomBeacon) (a : Addr), r1.bpRand = r2.bpRand → r1.groups = r2.groups →
        r1.nextBPCmteHistory = r2.nextBPCmteHistory → r1.Rank a = r2.Rank a) := by
  have hmem : ∀ (r : RandomBeacon) (a : Addr), a ∈ r.curBPGroup.Members →
      ∃ i, findIdxA a r.curBPGroup.Members = some i := by
    intro r a ha
    rcases hf : findIdxA a r.curBPGroup.Members with _ | i
    · exact absurd ha ((findIdxA_eq_none_iff a _).mp hf)
    · exact ⟨i, rfl⟩
  refine ⟨?_, ?_, ?_⟩
  · intro r a
    constructor
    · rintro ⟨e, he⟩ ha
      obtain ⟨i, hi⟩ := hmem r a ha
      rw [Rank_of_findIdxA r a i hi] at he
      cases he
    · intro ha
      have hf : findIdxA a r.curBPGroup.Members = none := (findIdxA_eq_none_iff a _).mpr ha
      refine ⟨"addr not in the current block proposal committee", ?_⟩
      simp only [RandomBeacon.Rank, hf]
  · intro r a b ha hb hab
    obtain ⟨i, hi⟩ := hmem r a ha
    obtain ⟨j, hj⟩ := hmem r b hb
    obtain ⟨hlti, hgeti⟩ := findIdxA_eq_some a _ i hi
    obtain ⟨hltj, hgetj⟩ := findIdxA_eq_some b _ j hj
    have hij : i ≠ j := by
      intro hh
      subst hh
      rw [hgeti] at hgetj
      exact hab hgetj
    rw [Rank_of_findIdxA r a i hi, Rank_of_findIdxA r b j hj]
    intro hh
    apply hij
    apply fyFun_injective r.bpRand r.curBPGroup.Members.length
    exact Except.ok.inj hh
  · intro r1 r2 a h1 h2 h3
    simp only [RandomBeacon.Rank, RandomBeacon.curBPGroup, h1, h2, h3]


theorem mem_inventoryStep (c : ChainView) (rb : RandomBeacon) (x id : ItemID)
    (h : id ∈ inventoryStep c rb x) :
    id = x ∧
    ((id.T = .BlockProposalItem ∨ id.T = .NtShareItem ∨ id.T = .RandBeaconShareItem ∨
        id.T = .RandBeaconItem) → id.ItemRound = c.round) ∧
    (id.T = .RandBeaconShareItem → rb.GetShare id.Hash = none) := by
  obtain ⟨t, rnd, ref, hsh⟩ := x
  cases t
  case TxnItem => cases h
  case SysTxnItem => cases h
  case BlockItem =>
    simp only [inventoryStep] at h
    split_ifs at h
    · cases h
    · rw [List.mem_singleton] at h
      subst h
      refine ⟨rfl, fun h2 => ?_, fun h2 => ?_⟩
      · rcases h2 with h2 | h2 | h2 | h2 <;> cases h2
      · cases h2
  case BlockProposalItem =>
    simp only [inventoryStep] at h
    split_ifs at h with h1 h2
    · cases h
    · cases h
    · rw [List.mem_singleton] at h
      subst h
      refine ⟨rfl, fun _ => by simpa using (not_not.mp h1), fun h2 => ?_⟩
      cases h2
  case NtShareItem =>
    simp only [inventoryStep] at h
    split_ifs at h with h1 h2 h3
    · cases h
    · cases h
    · rw [List.mem_singleton] at h
      subst h
      refine ⟨rfl, fun _ => by simpa using (not_not.mp h1), fun hx => ?_⟩
      cases hx
    · cases h
  case RandBeaconShareItem =>
    simp only [inventoryStep] at h
    split_ifs at h with h1 h2
    · cases h
    · cases h
    · rw [List.mem_singleton] at h
      subst h
      refine ⟨rfl, fun _ => by simpa using (not_not.mp h1), fun _ => ?_⟩
      exact Option.not_isSome_iff_eq_none.mp h2
  case RandBeaconItem =>
    simp only [inventoryStep] at h
    split_ifs at h with h1
    · cases h
    · rw [List.mem_singleton] at h
      subst h
      refine ⟨rfl, fun _ => by simpa using (not_not.mp h1), fun h2 => ?_⟩
      cases h2

theorem recvInventoryCalls_cons (c : ChainView) (rb : RandomBeacon) (x : ItemID)
    (rest : List ItemID) (hx1 : x.T ≠ .TxnItem) (hx2 : x.T ≠ .SysTxnItem) :
    recvInventoryCalls c rb (x :: rest)
      = inventoryStep c rb x ++ recvInventoryCalls c rb rest := by
  obtain ⟨t, rnd, ref, hsh⟩ := x
  cases t <;> simp_all [recvInventoryCalls]

theorem inventoryStep_rbshare (c : ChainView) (rb : RandomBeacon) (id : ItemID)
    (hT : id.T = .RandBeaconShareItem) (hrnd : id.ItemRound = c.round)
    (hgs : rb.GetShare id.Hash = none) : inventoryStep c rb id = [id] := by
  obtain ⟨t, rnd, ref, hsh⟩ := id
  simp only at hT
  subst hT
  simp_all [inventoryStep]

/-- C7: every `GetData` issued by `recvInventory` for a round-scoped item
kind (`BlockProposalItem`, `NtShareItem`, `RandBeaconShareItem`,
`RandBeaconItem`) carries `ItemRound` equal to the chain round, a
`RandBeaconShareItem` whose hash the beacon already holds is never
fetched, and a current-round `RandBeaconShareItem` with unknown hash is
fetched exactly as often as it is announced. -/
theorem C7_inventory_gating :
    (∀ (c : ChainView) (rb : RandomBeacon) (ids : List ItemID) (id : ItemID),
        id ∈ recvInventoryCalls c rb ids →
        ((id.T = .BlockProposalItem ∨ id.T = .NtShareItem ∨ id.T = .RandBeaconShareItem ∨
            id.T = .RandBeaconItem) → id.ItemRound = c.round) ∧
        (id.T = .RandBeaconShareItem → rb.GetShare id.Hash = none)) ∧
    (∀ (c : ChainView) (rb : RandomBeacon) (ids : List ItemID) (id : ItemID),
        (∀ x ∈ ids, x.T ≠ .TxnItem ∧ x.T ≠ .SysTxnItem) →
        id.T = .RandBeaconShareItem → id.ItemRound = c.round → rb.GetShare id.Hash = none →
        (recvInventoryCalls c rb ids).count id = ids.count id) := by
  constructor
  · intro c rb ids id h
    induction ids with
    | nil => cases h
    | cons x rest ih =>
      rw [recvInventoryCalls] at h
      split at h
      · cases h
      · cases h
      · rcases List.mem_append.mp h with h1 | h2
        · exact (mem_inventoryStep c rb x id h1).2
        · exact ih h2
  · intro c rb ids id hids hT hrnd hgs
    induction ids with
    | nil => rfl
    | cons x rest ih =>
      have hx := hids x (List.mem_cons_self x rest)
      rw [recvInventoryCalls_cons c rb x rest hx.1 hx.2, List.count_append,
          ih (fun y hy => hids y (List.mem_cons_of_mem x hy)), List.count_cons]
      by_cases hxid : x = id
      · subst hxid
        rw [inventoryStep_rbshare c rb x hT hrnd hgs]
        simp [List.count_cons]
        omega
      · have h0 : id ∉ inventoryStep c rb x := fun hmem =>
          hxid (mem_inventoryStep c rb x id hmem).1.symm
        rw [List.count_eq_zero.mpr h0]
        simp [hxid]


theorem mem_serveStep (c : ChainView) (rb : RandomBeacon) (x : ItemID) (m : SentMsg)
    (h : m ∈ serveStep c rb x) : nodeHolds c rb m := by
  obtain ⟨t, rnd, ref, hsh⟩ := x
  cases t
  case TxnItem => cases h
  case SysTxnItem => cases h
  case BlockItem =>
    simp only [serveStep] at h
    cases hb : c.block hsh with
    | none => rw [hb] at h; cases h
    | some b =>
      rw [hb] at h
      rw [List.mem_singleton] at h
      subst h
      exact ⟨hsh, hb⟩
  case BlockProposalItem =>
    simp only [serveStep] at h
    cases hb : c.blockProposal hsh with
    | none => rw [hb] at h; cases h
    | some bp =>
      rw [hb] at h
      rw [List.mem_singleton] at h
      subst h
      exact ⟨hsh, hb⟩
  case NtShareItem =>
    simp only [serveStep] at h
    cases hb : c.ntShare hsh with
    | none => rw [hb] at h; cases h
    | some nts =>
      rw [hb] at h
      rw [List.mem_singleton] at h
      subst h
      exact ⟨hsh, hb⟩
  case RandBeaconShareItem =>
    simp only [serveStep] at h
    cases hb : rb.GetShare hsh with
    | none => rw [hb] at h; cases h
    | some share =>
      rw [hb] at h
      rw [List.mem_singleton] at h
      subst h
      exact ⟨hsh, hb⟩
  case RandBeaconItem =>
    simp only [serveStep] at h
    split_ifs at h with h1
    · cases h
    · rw [List.mem_singleton] at h
      subst h
      have h1' : ¬ rb.History.length ≤ rnd := h1
      have hlt : rnd < rb.History.length := by omega
      show rb.History.getD rnd default ∈ rb.History
      rw [List.getD_eq_getElem _ _ hlt]
      exact List.getElem_mem hlt

/-- C8: every message `serveData` sends is an item the node holds (absent
items are skipped), and a `RandBeaconItem` request is skipped when
`ItemRound ≥ len(History())` and answered with `History()[ItemRound]`
otherwise. -/
theorem C8_serveData_spec :
    (∀ (c : ChainView) (rb : RandomBeacon) (ids : List ItemID) (m : SentMsg),
        m ∈ serveDataMsgs c rb ids → nodeHolds c rb m) ∧
    (∀ (c : ChainView) (rb : RandomBeacon) (id : ItemID), id.T = .RandBeaconItem →
        (rb.History.length ≤ id.ItemRound → serveStep c rb id = []) ∧
        (id.ItemRound < rb.History.length →
            serveStep c rb id = [.randBeaconSig (rb.History.getD id.ItemRound default)])) := by
  constructor
  · intro c rb ids m h
    induction ids with
    | nil => cases h
    | cons x rest ih =>
      rw [serveDataMsgs] at h
      split at h
      · cases h
      · cases h
      · rcases List.mem_append.mp h with h1 | h2
        · exact mem_serveStep c rb x m h1
        · exact ih h2
  · intro c rb id hT
    obtain ⟨t, rnd, ref, hsh⟩ := id
    simp only at hT
    subst hT
    constructor
    · intro hle
      simp only [serveStep]
      rw [if_pos hle]
    · intro hlt
      have hlt' : rnd < rb.History.length := hlt
      simp only [serveStep]
      rw [if_neg (by omega)]


/-- C1 witness: the fixture beacon at round 1 accepts `sigA` and advances
to round 2. -/
theorem C1_witness :
    (beacon0.RecvRandBeaconSig sigA).2 = none ∧
    (beacon0.RecvRandBeaconSig sigA).1.Round = beacon0.Round + 1 :=
  ⟨(C1_recvSig_advances beacon0 sigA (by decide) (by decide)).1,
   (C1_recvSig_advances beacon0 sigA (by decide) (by decide)).2.2.2.2.2.2.2.2.2.1⟩

/-- C2 witness: with threshold 2, the second valid round-1 share returns
a signature with `Round = 1` and `LastRandVal = hash(sigHistory[0].Sig)`. -/
theorem C2_witness :
    ∃ sig, (beacon1.RecvRandBeaconSigShare share2 0).2 = .ok (some sig) ∧
      sig.Round = 1 ∧ sig.LastRandVal = h0 := by
  obtain ⟨sig, hs, hr, hl⟩ :=
    (C2_threshold beacon1 share2 0 (by decide) (by decide)).2 (by decide)
  exact ⟨sig, hs, hr, hl⟩

/-- C3 witness: a round-2 share submitted at round 1 is rejected with an
error and the beacon is unchanged. -/
theorem C3_witness :
    (beacon0.RecvRandBeaconSigShare shareBadRound 0).1 = beacon0 ∧
    ∃ e, (beacon0.RecvRandBeaconSigShare shareBadRound 0).2 = .error e :=
  (C3_recvShare_validation beacon0 shareBadRound 0).1 (by decide)

/-- C5 witness: the fresh fixture beacon is at round 1 and accepting one
signature advances it to round 2. -/
theorem C5_witness :
    beacon0.Round = 1 ∧ (beacon0.RecvRandBeaconSig sigA).1.Round = beacon0.Round + 1 :=
  ⟨C5_round_invariants.2.1 seed0 groups0 cfg0,
   C5_round_invariants.2.2.2.2.1 beacon0 sigA (by decide)⟩

/-- C6 witness: a non-member address gets an error and two distinct
members of the fixture committee get distinct ranks. -/
theorem C6_witness :
    (∃ e, beacon0.Rank 40 = .error e) ∧ beacon0.Rank 10 ≠ beacon0.Rank 20 :=
  ⟨(C6_rank_spec.1 beacon0 40).mpr (by decide),
   C6_rank_spec.2.1 beacon0 10 20 (by decide) (by decide) (by decide)⟩

/-- C7 witness: at chain round 5, an unknown current-round beacon share is
fetched exactly once and the same item at round 4 is not fetched. -/
theorem C7_witness :
    (recvInventoryCalls chain5 beacon0 [item5]).count item5 = 1 ∧
    item4 ∉ recvInventoryCalls chain5 beacon0 [item4] := by
  constructor
  · have h := C7_inventory_gating.2 chain5 beacon0 [item5] item5 (by decide) (by decide)
      (by decide) (by decide)
    rw [h]
    decide
  · intro hmem
    have h := (C7_inventory_gating.1 chain5 beacon0 [item4] item4 hmem).1
      (Or.inr (Or.inr (Or.inl (by decide))))
    exact absurd h (by decide)

/-- C8 witness: a stored block is served (and held), and a beacon request
beyond the history length is skipped. -/
theorem C8_witness :
    nodeHolds chainB beacon0 (.block ⟨5⟩) ∧ serveStep chainB beacon0 itemRBHigh = [] :=
  ⟨C8_serveData_spec.1 chainB beacon0 [itemB] (.block ⟨5⟩) (by decide),
   (C8_serveData_spec.2 chainB beacon0 itemRBHigh (by decide)).1 (by decide)⟩

/-- C9 witness: the threshold-meeting call leaves `sigHistory` unchanged
and keeps the inserted share visible through `GetShare`. -/
theorem C9_witness :
    (beacon1.RecvRandBeaconSigShare share2 0).1.sigHistory = beacon1.sigHistory ∧
    (beacon1.RecvRandBeaconSigShare share2 0).1.GetShare share2.Hash = some share2 := by
  have h := C9_recvShare_frame beacon1 share2 0
  refine ⟨h.2.2.1, ?_⟩
  exact h.2.2.2.2.2.2.2.2.2.2.1
    { Round := share2.Round, LastRandVal := share2.LastSigHash,
      Sig := recoverRandBeaconSig (mapInsert beacon1.curRoundShares share2.Hash share2) }
    (by decide)

end Dex
